import Mathlib

/-!
Verification development for the suntobot summarization pipeline
(`src/summary_engine.py`, `src/database.py`, `src/message_handler.py`).

The Python code is shallowly embedded: strings are `List Char` (Python
strings are sequences of code points, and the sanitizer indexes them by
code-point position), Python `while` loops become fuel-based recursion
with fuel that provably suffices, and the external text-completion
service is an abstract function parameter.
-/

namespace Suntobot

/-! ## Basic Python string primitives -/

/-- Python prefix test: `listStartsWith pat s` is Python `s.startswith(pat)` on char lists. -/
def listStartsWith : List Char → List Char → Bool
  | [], _ => true
  | _ :: _, [] => false
  | p :: ps, c :: cs => p == c && listStartsWith ps cs

/-- Length of the maximal prefix whose characters satisfy `p`. -/
def scanWhile (p : Char → Bool) : List Char → Nat
  | [] => 0
  | c :: cs => if p c then scanWhile p cs + 1 else 0

/-- Python `str.replace(pat, repl)`: non-overlapping, left to right, the
replacement text is not rescanned.  (All call sites in the source use a
non-empty pattern; for an empty pattern this returns the string.)
`fuel` bounds the steps; every step consumes at least one input
character, so `s.length` steps always suffice. -/
def pyReplaceAux (pat repl : List Char) : Nat → List Char → List Char
  | 0, s => s
  | fuel + 1, s =>
    match s with
    | [] => []
    | c :: rest =>
      if !pat.isEmpty && listStartsWith pat (c :: rest) then
        repl ++ pyReplaceAux pat repl fuel (List.drop pat.length (c :: rest))
      else
        c :: pyReplaceAux pat repl fuel rest

/-- Python `str.replace(pat, repl)` on char lists. -/
def pyReplace (pat repl : List Char) (s : List Char) : List Char :=
  pyReplaceAux pat repl s.length s

/-- Stable insertion of `x` before the first element `y` with
`le x y`. -/
def insertLe {α : Type} (le : α → α → Bool) (x : α) : List α → List α
  | [] => [x]
  | y :: ys => if le x y then x :: y :: ys else y :: insertLe le x ys

/-- Stable sort with respect to the boolean comparison `le` — the
semantics of Python's stable `sorted`/`list.sort` for a total preorder
comparison. -/
def pySorted {α : Type} (le : α → α → Bool) : List α → List α
  | [] => []
  | x :: xs => insertLe le x (pySorted le xs)

/-- The characters Python `str.strip()` removes (ASCII whitespace; the
source only ever feeds ASCII whitespace to it). -/
def isPySpace (c : Char) : Bool :=
  c == ' ' || c == '\t' || c == '\n' || c == '\r' || c == Char.ofNat 11 || c == Char.ofNat 12

/-- Python `str.strip()`. -/
def pyStrip (l : List Char) : List Char :=
  ((l.dropWhile isPySpace).reverse.dropWhile isPySpace).reverse

/-- ASCII lowercase of a char list (Python `str.lower()` on tag names,
which are ASCII by construction of the tag regex). -/
def listLower (l : List Char) : List Char := l.map Char.toLower

/-! ## The tag scanner: `re.finditer(r"<(/?)([a-zA-Z][a-zA-Z0-9]*)\b([^>]*)>", text)` -/

/-- One match of the tag pattern, mirroring the dict built in
`sanitize_html` (summary_engine.py lines 260-270).  `tag_start`/`tag_stop`
are `match.start()`/`match.end()` as code-point indices. -/
structure HtmlTag where
  name : List Char
  is_closing : Bool
  attributes : List Char
  tag_start : Nat
  tag_stop : Nat
  allowed : Bool
deriving DecidableEq, Repr

/-- Regex word character (`\w`): letters, digits, underscore. -/
def isWordChar (c : Char) : Bool := c.isAlphanum || c == '_'

/-- The allowed tag set of `sanitize_html` (line 247). -/
def allowed_tags : List (List Char) :=
  ["b".data, "i".data, "u".data, "s".data, "code".data, "pre".data, "a".data]

/-- Try to match the tag regex at position `i` of `t`:
`<`, optional `/`, a letter followed by a maximal alphanumeric run (the
`\b` then requires the next character to not be a word character),
`[^>]*`, `>`. -/
def matchTagAt (t : List Char) (i : Nat) : Option HtmlTag :=
  if t[i]? = some '<' then
    let (isClosing, j) := if t[i+1]? = some '/' then (true, i + 2) else (false, i + 1)
    match t[j]? with
    | some c =>
      if c.isAlpha then
        let k := j + 1 + scanWhile Char.isAlphanum (t.drop (j + 1))
        if (t[k]?.map isWordChar).getD false then
          none
        else
          match (t.drop k).findIdx? (· == '>') with
          | some d =>
            let name := listLower ((t.drop j).take (k - j))
            let attrs := pyStrip ((t.drop k).take d)
            some ⟨name, isClosing, attrs, i, k + d + 1, allowed_tags.contains name⟩
          | none => none
      else none
    | none => none
  else none

/-- Scan for successive non-overlapping matches, resuming each search at
the end of the previous match, exactly as `re.finditer` does.  `fuel`
bounds the iterations; every step advances the position by at least one,
so `t.length + 1` iterations always suffice. -/
def findTagsAux (t : List Char) : Nat → Nat → List HtmlTag
  | 0, _ => []
  | fuel + 1, i =>
    if i < t.length then
      match matchTagAt t i with
      | some tag => tag :: findTagsAux t fuel tag.tag_stop
      | none => findTagsAux t fuel (i + 1)
    else []

/-- All tag matches of the sanitizer's tag pattern in `t`, in order. -/
def findTags (t : List Char) : List HtmlTag := findTagsAux t (t.length + 1) 0

/-! ## href validation for anchors -/

/-- Case-insensitive `listStartsWith` (the href regex carries
`re.IGNORECASE`). -/
def listStartsWithCI (pat s : List Char) : Bool :=
  listStartsWith (listLower pat) (listLower s)

/-- Try to match `href\s*=\s*["']([^"']*)["']` at the head of `s`,
returning the captured group.  Note the capture class excludes both quote
characters, and the closing quote may be either kind, exactly as in the
regex at summary_engine.py lines 290-294. -/
def matchHrefFrom (s : List Char) : Option (List Char) :=
  if listStartsWithCI "href".data s then
    let r1 := s.drop 4
    let r2 := r1.drop (scanWhile isPySpace r1)
    match r2 with
    | '=' :: r3 =>
      let r4 := r3.drop (scanWhile isPySpace r3)
      match r4 with
      | q :: r5 =>
        if q == '"' || q == Char.ofNat 39 then
          let cap := r5.takeWhile (fun c => !(c == '"' || c == Char.ofNat 39))
          if r5.drop cap.length = [] then none else some cap
        else none
      | [] => none
    | _ => none
  else none

/-- Search as `re.search` of the href pattern: leftmost match anywhere in `s`. -/
def hrefSearch : List Char → Option (List Char)
  | [] => none
  | c :: cs =>
    match matchHrefFrom (c :: cs) with
    | some cap => some cap
    | none => hrefSearch cs

/-- Scheme test `href.startswith(("http://", "https://", "tg://", "mailto:"))`
(summary_engine.py line 298). -/
def validScheme (href : List Char) : Bool :=
  listStartsWith "http://".data href || listStartsWith "https://".data href ||
    listStartsWith "tg://".data href || listStartsWith "mailto:".data href

/-! ## The stack-based pair matching (summary_engine.py lines 272-326) -/

/-- A validated opening/closing pair together with its clean replacement
text. -/
structure TagPair where
  opening : HtmlTag
  closing : HtmlTag
  clean_opening : List Char
  clean_closing : List Char
deriving DecidableEq, Repr

/-- Build the clean pair for a matched opening/closing, or `none` for an
anchor without an acceptable href (lines 287-309). -/
def mkCleanPair (opening closing : HtmlTag) : Option TagPair :=
  if closing.name == "a".data then
    match hrefSearch opening.attributes with
    | some href =>
      if validScheme href then
        some ⟨opening, closing, "<a href=\"".data ++ href ++ "\">".data, "</a>".data⟩
      else none
    | none => none
  else
    some ⟨opening, closing, '<' :: (closing.name ++ ">".data),
      '<' :: '/' :: (closing.name ++ ">".data)⟩

/-- The matching loop over all found tags.  The stack grows at its head
(Python appends/pops at the end of `tag_stack`); disallowed tags are
skipped; an orphaned or improperly nested closing tag clears the
improperly nested stack prefix and produces no pair; tags left on the
stack at the end are simply dropped. -/
def buildValidTags (stack : List HtmlTag) (acc : List TagPair) : List HtmlTag → List TagPair
  | [] => acc
  | tag :: rest =>
    if !tag.allowed then
      buildValidTags stack acc rest
    else if tag.is_closing then
      match stack with
      | top :: stackTail =>
        if top.name == tag.name then
          match mkCleanPair top tag with
          | some pr => buildValidTags stackTail (acc ++ [pr]) rest
          | none => buildValidTags stackTail acc rest
        else
          match stack.dropWhile (fun t => t.name != tag.name) with
          | [] => buildValidTags [] acc rest
          | _ :: s2 => buildValidTags s2 acc rest
      | [] => buildValidTags [] acc rest
    else
      buildValidTags (tag :: stack) acc rest

/-! ## Applying replacements and removals by recorded positions -/

/-- Splice `res[:start] + repl + res[stop:]` — Python slices clamp out-of-range
indices, and so do `List.take`/`List.drop`. -/
def spliceReplace (res : List Char) (start stop : Nat) (repl : List Char) : List Char :=
  res.take start ++ repl ++ res.drop stop

/-- The replacement loop (lines 331-345): iterate the pairs in the given
order, replacing each pair's closing tag first, then its opening tag, at
their originally recorded positions. -/
def applyPairs : List TagPair → List Char → List Char
  | [], res => res
  | pr :: rest, res =>
    applyPairs rest
      (spliceReplace (spliceReplace res pr.closing.tag_start pr.closing.tag_stop pr.clean_closing)
        pr.opening.tag_start pr.opening.tag_stop pr.clean_opening)

/-- Whether `tag`'s recorded span coincides with the opening or closing
span of one of the valid pairs (lines 350-362). -/
def tagUsed (pairs : List TagPair) (tag : HtmlTag) : Bool :=
  pairs.any fun pr =>
    (tag.tag_start == pr.opening.tag_start && tag.tag_stop == pr.opening.tag_stop) ||
      (tag.tag_start == pr.closing.tag_start && tag.tag_stop == pr.closing.tag_stop)

/-- Descending lexicographic order on spans: `sorted(spans, reverse=True)`. -/
def spanDescLe (a b : Nat × Nat) : Bool :=
  decide (b.1 < a.1 ∨ (b.1 = a.1 ∧ b.2 ≤ a.2))

/-- Remove the recorded spans of all unused tags, right to left
(lines 367-369). -/
def removeSpans : List (Nat × Nat) → List Char → List Char
  | [], res => res
  | (s, e) :: rest, res => removeSpans rest (res.take s ++ res.drop e)

/-- Newline cleanup `re.sub(r"\n{3,}", "\n\n", result)`: a run of three or more newlines
collapses to exactly two; shorter runs are untouched. -/
def collapseNewlinesAux : Nat → List Char → List Char
  | 0, l => l
  | fuel + 1, l =>
    match l with
    | [] => []
    | c :: rest =>
      if c == '\n' then
        let run := 1 + scanWhile (· == '\n') rest
        (if 3 ≤ run then ['\n', '\n'] else List.replicate run '\n') ++
          collapseNewlinesAux fuel (rest.drop (run - 1))
      else
        c :: collapseNewlinesAux fuel rest

/-- Runs `re.sub` of the newline-run pattern on a char list.  `fuel` bounds
the steps; every step consumes at least one character. -/
def collapseNewlines (l : List Char) : List Char := collapseNewlinesAux l.length l

/-! ## The sanitizer pipeline (summary_engine.py lines 227-374) -/

/-- The literal replacements applied before tag processing
(lines 228-244), in source order: `<br>` normalization, tag synonym
rewrites, the turn-marker removals, HTML entity decoding, and the
list-tag rewrites. -/
def sanitize_preprocess (t : List Char) : List Char :=
  t |> pyReplace "<br />".data "\n".data
    |> pyReplace "<br>".data "\n".data
    |> pyReplace "<strong>".data "<b>".data
    |> pyReplace "</strong>".data "</b>".data
    |> pyReplace "<em>".data "<i>".data
    |> pyReplace "</em>".data "</i>".data
    |> pyReplace "</end_of_turn>".data "".data
    |> pyReplace "</start_of_turn>".data "".data
    |> pyReplace "&lt;".data "<".data
    |> pyReplace "&gt;".data ">".data
    |> pyReplace "&amp;".data "&".data
    |> pyReplace "<ul>".data "".data
    |> pyReplace "</ul>".data "".data
    |> pyReplace "<li>".data "🔸 ".data
    |> pyReplace "</li>".data "\n\n".data

/-- Body of `sanitize_html` on char lists: preprocess, find tags, match pairs,
replace valid pairs right to left, remove unused tag spans right to
left, collapse newline runs, strip. -/
def sanitize_chars (t : List Char) : List Char :=
  let text := sanitize_preprocess t
  let tags := findTags text
  let valid := buildValidTags [] [] tags
  let sortedPairs := pySorted (fun a b => decide (a.opening.tag_start ≤ b.opening.tag_start)) valid
  let afterPairs := applyPairs sortedPairs.reverse text
  let spans := (tags.filter (fun tag => !tagUsed sortedPairs tag)).map
    (fun tag => (tag.tag_start, tag.tag_stop))
  let afterRemoval := removeSpans (pySorted spanDescLe spans) afterPairs
  pyStrip (collapseNewlines afterRemoval)

/-- Embedding of `sanitize_html` (summary_engine.py lines 204-374) from
the point after the external `markdown.markdown` library call (line 226):
the input here is the markdown-converted text.  The conversion itself is
an external collaborator (the `markdown` package), not code of this
repository. -/
def sanitize_html (text : String) : String :=
  if text.isEmpty then text else (sanitize_chars text.data).asString

/-! ## Spec-side well-formedness checker

Written from the specification's words ("output contains only tags from
the allowed set, and every surviving tag has exactly one matching
partner"), to be compared with what `sanitize_html` actually outputs. -/

/-- Check that a tag sequence is properly nested, fully matched, and uses
only allowed tag names. -/
def checkBalanced : List (List Char) → List HtmlTag → Bool
  | [], [] => true
  | _ :: _, [] => false
  | stack, tag :: rest =>
    if !tag.allowed then false
    else if tag.is_closing then
      match stack with
      | n :: stack' => if n == tag.name then checkBalanced stack' rest else false
      | [] => false
    else checkBalanced (tag.name :: stack) rest

/-- Spec guarantee for sanitizer output: every tag in the text is from
the allowed set and belongs to exactly one properly nested
opening/closing pair. -/
def spec_wellformed (t : String) : Bool :=
  checkBalanced [] (findTags t.data)

/-! ## Configuration (src/config.py, environment defaults) -/

/-- The configuration fields the summarization core reads, with the
defaults from `src/config.py` (all of them are overridable through
environment variables, so the embedding keeps them as parameters). -/
structure Config where
  SMALL_SUMMARY_THRESHOLD : Nat := 200
  SUMMARY_CHUNK_SIZE : Nat := 70
  SUMMARY_CHUNK_OVERLAP : Nat := 5
  MAX_PARALLEL_CHUNKS : Nat := 2
  MAX_CONTEXT_TOKENS : Nat := 16000
  CHARS_PER_TOKEN : Nat := 4
deriving DecidableEq, Repr

/-- The defaults of `src/config.py`. -/
def defaultConfig : Config := {}

/-! ## Messages and chunk boundaries (summary_engine.py lines 18-87) -/

/-- The fields of the stored `Message` (database.py lines 22-42) that
the chunking and assembly control flow reads.  The remaining fields
(username, text, image description, forwarding data, timestamp) only
flow into the prompt text handed to the external completion service,
which the embedding abstracts as a function on message lists. -/
structure Msg where
  message_id : Int
  chat_id : Int
deriving DecidableEq, Repr

/-- The `message_id` of the first message, `0` for an empty list (never used
on an empty list by the source). -/
def head_msg_id (l : List Msg) : Int :=
  match l with
  | [] => 0
  | m :: _ => m.message_id

/-- The `message_id` of the last message (`messages[-1]`). -/
def last_msg_id (l : List Msg) : Int :=
  match l.getLast? with
  | some m => m.message_id
  | none => 0

/-- The `ChunkBoundary` dataclass (summary_engine.py lines 18-25). -/
structure ChunkBoundary where
  start_message_id : Int
  end_message_id : Int
  message_count : Nat
  is_complete : Bool
deriving DecidableEq, Repr

/-- The `while` loop of `calculate_chunk_boundaries` (lines 68-85).
`fuel` bounds the iterations; each iteration moves `start_idx` forward by
`chunk_size - overlap`, so `messages.length + 1` iterations suffice
whenever `overlap < chunk_size` (which is how the loop terminates in
Python; the configured values are 5 and 70). -/
def calcBoundariesAux (messages : List Msg) (chunk_size overlap : Nat) :
    Nat → Nat → List ChunkBoundary
  | 0, _ => []
  | fuel + 1, start_idx =>
    if start_idx < messages.length then
      let end_idx := min (start_idx + chunk_size) messages.length
      let chunk := (messages.drop start_idx).take (end_idx - start_idx)
      let b : ChunkBoundary :=
        ⟨head_msg_id chunk, last_msg_id chunk, chunk.length, chunk.length == chunk_size⟩
      if messages.length ≤ end_idx then [b]
      else b :: calcBoundariesAux messages chunk_size overlap fuel (end_idx - overlap)
    else []

/-- Embeds `ChunkCacheManager.calculate_chunk_boundaries`
(summary_engine.py lines 38-87). -/
def calculate_chunk_boundaries (messages : List Msg) (chunk_size overlap : Nat) :
    List ChunkBoundary :=
  if messages = [] then []
  else if messages.length ≤ chunk_size then
    [⟨head_msg_id messages, last_msg_id messages, messages.length, false⟩]
  else calcBoundariesAux messages chunk_size overlap (messages.length + 1) 0

/-- Embeds `ChunkCacheManager.generate_chunk_id` (lines 34-36):
`f"{chat_id}_{start_id}_{end_id}"`. -/
def generate_chunk_id (chat_id start_id end_id : Int) : String :=
  toString chat_id ++ "_" ++ toString start_id ++ "_" ++ toString end_id

/-! ## The chunk-summary table (src/database.py) -/

/-- A row of the `chunk_summaries` table (database.py lines 45-62); the
`chunk_id` column carries a UNIQUE constraint.  `created_at` is a
database-side timestamp default and is never read by the core. -/
structure ChunkRow where
  chunk_id : String
  chat_id : Int
  start_message_id : Int
  end_message_id : Int
  message_count : Nat
  summary_text : String
deriving DecidableEq, Repr

/-- Embeds `DatabaseManager.store_chunk_summary` (database.py lines 327-353):
insert a new row and commit.  The UNIQUE constraint on `chunk_id` makes
the commit of a duplicate fail; the session is rolled back (the table is
unchanged) and the exception is re-raised to the caller, modelled as
`Except.error`. -/
def db_store_chunk_summary (table : List ChunkRow) (chunk_id : String) (chat_id : Int)
    (start_message_id end_message_id : Int) (message_count : Nat) (summary_text : String) :
    Except String (List ChunkRow) :=
  if table.any (fun r => r.chunk_id == chunk_id) then
    Except.error "UNIQUE constraint failed: chunk_summaries.chunk_id"
  else
    Except.ok (table ++
      [⟨chunk_id, chat_id, start_message_id, end_message_id, message_count, summary_text⟩])

/-- Embeds `DatabaseManager.get_chunk_summary` (database.py lines 314-325). -/
def db_get_chunk_summary (table : List ChunkRow) (chunk_id : String) : Option String :=
  (table.find? (fun r => r.chunk_id == chunk_id)).map (·.summary_text)

/-- Ordering rows by `start_message_id` ascending (the `ORDER BY` of the
range query, and the Python re-sort at summary_engine.py line 637). -/
def sortChunksByStart (l : List ChunkRow) : List ChunkRow :=
  pySorted (fun a b => decide (a.start_message_id ≤ b.start_message_id)) l

/-- Embeds `DatabaseManager.get_cached_chunks_for_range` (database.py
lines 355-373): every row of the chat whose
`[start_message_id, end_message_id]` intersects the query range, ordered
by `start_message_id`. -/
def db_get_cached_chunks_for_range (table : List ChunkRow) (chat_id : Int)
    (start_message_id end_message_id : Int) : List ChunkRow :=
  sortChunksByStart (table.filter fun r =>
    r.chat_id == chat_id && decide (r.start_message_id ≤ end_message_id) &&
      decide (start_message_id ≤ r.end_message_id))

/-! ## The summary engine's assembly pipeline (summary_engine.py lines 377-1043)

The external completion endpoint is abstracted as a function
`f : List Msg → String` mapping the messages handed to one chunk-level
completion call to the text it returns (the prompt formatting of
`_format_messages_for_chunk` is folded into `f`).  Each model function
additionally returns the list of raw-message completion calls it issued
(`calls`, each entry the exact message list summarized) and the chunk
rows it stored, so that theorems can speak about which messages ever
reach a completion call. -/

/-- Output of the chunk-processing helpers: the produced summaries, the
raw-message completion calls issued, and the chunk rows stored. -/
structure ProcOut where
  summaries : List String
  calls : List (List Msg)
  stored : List ChunkRow
deriving DecidableEq, Repr

/-- Embeds `SummaryEngine._summarize_chunk` (lines 388-432): an empty message
list returns `""` without calling the completion service; otherwise one
completion call over the messages. -/
def summarize_chunk (f : List Msg → String) (messages : List Msg) :
    String × List (List Msg) :=
  if messages.isEmpty then ("", []) else (f messages, [messages])

/-- Dictionary lookup in the pre-existing `cached_chunks` dict. -/
def lookupCached (cached : List (String × String)) (chunk_id : String) : Option String :=
  (cached.find? (fun p => p.1 == chunk_id)).map (·.2)

/-- Embeds `SummaryEngine._process_chunks_with_boundaries` (lines 779-841):
walk the boundaries; with `should_cache` set, skip incomplete chunks;
extract each boundary's messages; consult the pre-existing cache dict;
otherwise issue one completion call, keep a non-empty result, and store
it when caching a complete chunk. -/
def process_chunks_with_boundaries (f : List Msg → String) (messages : List Msg)
    (chat_id : Int) (should_cache : Bool) (cached : List (String × String)) :
    List ChunkBoundary → ProcOut
  | [] => ⟨[], [], []⟩
  | b :: rest =>
    let cont := process_chunks_with_boundaries f messages chat_id should_cache cached rest
    if should_cache && !b.is_complete then cont
    else
      let chunk_messages := messages.filter fun m =>
        decide (b.start_message_id ≤ m.message_id) && decide (m.message_id ≤ b.end_message_id)
      if chunk_messages.isEmpty then cont
      else
        let cid := generate_chunk_id chat_id b.start_message_id b.end_message_id
        match lookupCached cached cid with
        | some s => ⟨s :: cont.summaries, cont.calls, cont.stored⟩
        | none =>
          let sl := summarize_chunk f chunk_messages
          if sl.1.isEmpty then ⟨cont.summaries, sl.2 ++ cont.calls, cont.stored⟩
          else if should_cache && b.is_complete then
            ⟨sl.1 :: cont.summaries, sl.2 ++ cont.calls,
              ⟨cid, chat_id, b.start_message_id, b.end_message_id, b.message_count, sl.1⟩ ::
                cont.stored⟩
          else ⟨sl.1 :: cont.summaries, sl.2 ++ cont.calls, cont.stored⟩

/-- Python `"\n\n".join(f"Part {i + 1}: {summary}" for ...)`. -/
def joinParts (ss : List String) : String :=
  String.intercalate "\n\n" (ss.enum.map fun p => "Part " ++ toString (p.1 + 1) ++ ": " ++ p.2)

/-- Embeds `SummaryEngine._process_uncovered_range` (lines 843-868): a small
range gets a single direct completion call; a large one is chunked
without caching and the chunk summaries are combined textually. -/
def process_uncovered_range (cfg : Config) (f : List Msg → String) (messages : List Msg) :
    String × List (List Msg) :=
  if messages.length ≤ cfg.SMALL_SUMMARY_THRESHOLD then
    summarize_chunk f messages
  else
    let boundaries := calculate_chunk_boundaries messages cfg.SUMMARY_CHUNK_SIZE
      cfg.SUMMARY_CHUNK_OVERLAP
    let chat_id := match messages with
      | [] => 0
      | m :: _ => m.chat_id
    let out := process_chunks_with_boundaries f messages chat_id false [] boundaries
    if 1 < out.summaries.length then
      ("Combined uncovered range summary:\n" ++ joinParts out.summaries, out.calls)
    else
      (out.summaries.headD "", out.calls)

/-! ### Progressive summarization (lines 760-777 and 935-1027) -/

/-- Python `sum(len(summary) for summary in summaries)`. -/
def totalChars (l : List String) : Nat := l.foldl (fun a s => a + s.length) 0

/-- The budget `MAX_CONTEXT_TOKENS * CHARS_PER_TOKEN // 2` — the conservative
character budget for one meta-summary call. -/
def max_chars_for_meta_summary (cfg : Config) : Nat :=
  cfg.MAX_CONTEXT_TOKENS * cfg.CHARS_PER_TOKEN / 2

/-- The grouping loop of `_apply_progressive_summarization`
(lines 962-987): walk the summaries in storage order, accumulating a
current group; when adding a summary would push the current non-empty
group past the target character count, close the group and start a new
one with that summary. -/
def metaChunkGroupsAux (target : Nat) : List String → List String → Nat → List (List String)
  | [], cur, _ => if cur.isEmpty then [] else [cur]
  | s :: rest, cur, cnt =>
    if target < cnt + s.length && !cur.isEmpty then
      cur :: metaChunkGroupsAux target rest [s] s.length
    else
      metaChunkGroupsAux target rest (cur ++ [s]) (cnt + s.length)

/-- The meta-chunk grouping with its target of a quarter of the budget
(`max_chars_for_meta_summary // 4`, line 966). -/
def meta_chunk_groups (cfg : Config) (summaries : List String) : List (List String) :=
  metaChunkGroupsAux (max_chars_for_meta_summary cfg / 4) summaries [] 0

/-- The shape of the input reaching the final combining completion call:
either the summaries directly (one final call, no reduction), or the
grouped summaries, one group-level completion call per group followed by
the final call over the group results. -/
inductive FinalInput where
  | direct (summaries : List String)
  | reduced (groups : List (List String))
deriving DecidableEq, Repr

/-- Number of group-level completion calls the final assembly issues. -/
def numGroupCalls : FinalInput → Nat
  | .direct _ => 0
  | .reduced groups => groups.length

/-- Embeds `SummaryEngine._apply_progressive_summarization` (lines 935-1027) as
a plan: below the budget it falls through to one direct meta-summary
call; above it, the summaries are grouped by character count, each group
gets one completion call, and the final call runs over the group
results.  The reduction is single-level: the function never re-groups
the group results. -/
def apply_progressive_summarization (cfg : Config) (summaries : List String) : FinalInput :=
  if totalChars summaries ≤ max_chars_for_meta_summary cfg then
    .direct summaries
  else
    .reduced (meta_chunk_groups cfg summaries)

/-- The dispatch at summary_engine.py lines 760-777: progressive
summarization exactly when the accumulated summaries exceed the
character budget, otherwise one direct meta-summary call. -/
def assemble_final (cfg : Config) (summaries : List String) : FinalInput :=
  if max_chars_for_meta_summary cfg < totalChars summaries then
    apply_progressive_summarization cfg summaries
  else
    .direct summaries

/-! ### `_generate_cache_aware_summary` (lines 588-777) -/

/-- Sorting messages by `message_id` (line 601). -/
def sortMsgs (messages : List Msg) : List Msg :=
  pySorted (fun a b => decide (a.message_id ≤ b.message_id)) messages

/-- The `chat_id` of the first sorted message. -/
def head_chat_id (l : List Msg) : Int :=
  match l with
  | [] => 0
  | m :: _ => m.chat_id

/-- The request range start: `sorted_messages[0].message_id`. -/
def req_start (messages : List Msg) : Int := head_msg_id (sortMsgs messages)

/-- The request range end: `sorted_messages[-1].message_id`. -/
def req_end (messages : List Msg) : Int := last_msg_id (sortMsgs messages)

/-- The overlapping cached chunks the engine retrieves for the request
(`ChunkCacheManager.get_cached_chunks_for_range`, lines 89-126, which
passes through the database query; the Python re-sort at line 637 is a
no-op on the already-sorted result). -/
def overlapping_of (table : List ChunkRow) (messages : List Msg) : List ChunkRow :=
  db_get_cached_chunks_for_range table (head_chat_id (sortMsgs messages))
    (req_start messages) (req_end messages)

/-- Python `min(chunk["start_message_id"] for chunk in overlapping_chunks)`
(line 648). -/
def covered_start (chunks : List ChunkRow) : Int :=
  match chunks.map (·.start_message_id) with
  | [] => 0
  | x :: xs => xs.foldl min x

/-- Python `max(chunk["end_message_id"] for chunk in overlapping_chunks)`
(line 649). -/
def covered_end (chunks : List ChunkRow) : Int :=
  match chunks.map (·.end_message_id) with
  | [] => 0
  | x :: xs => xs.foldl max x

/-- Processing of the uncovered range before the first cached chunk
(lines 663-708).  Returns summaries (in order, to be prepended), calls,
and stored rows. -/
def before_part (cfg : Config) (f : List Msg → String) (sorted : List Msg) (chat_id : Int)
    (start_message_id cs : Int) : ProcOut :=
  if start_message_id < cs then
    let uncovered := sorted.filter fun m =>
      decide (start_message_id ≤ m.message_id) && decide (m.message_id < cs)
    if uncovered.isEmpty then ⟨[], [], []⟩
    else if cfg.SUMMARY_CHUNK_SIZE ≤ uncovered.length then
      let boundaries := calculate_chunk_boundaries uncovered cfg.SUMMARY_CHUNK_SIZE
        cfg.SUMMARY_CHUNK_OVERLAP
      process_chunks_with_boundaries f uncovered chat_id true [] boundaries
    else
      let sc := process_uncovered_range cfg f uncovered
      ⟨[sc.1], sc.2, []⟩
  else ⟨[], [], []⟩

/-- Processing of the uncovered range after the last cached chunk
(lines 711-750). -/
def after_part (cfg : Config) (f : List Msg → String) (sorted : List Msg) (chat_id : Int)
    (end_message_id ce : Int) : ProcOut :=
  if ce < end_message_id then
    let uncovered := sorted.filter fun m => decide (ce < m.message_id)
    if uncovered.isEmpty then ⟨[], [], []⟩
    else if cfg.SUMMARY_CHUNK_SIZE ≤ uncovered.length then
      let boundaries := calculate_chunk_boundaries uncovered cfg.SUMMARY_CHUNK_SIZE
        cfg.SUMMARY_CHUNK_OVERLAP
      process_chunks_with_boundaries f uncovered chat_id true [] boundaries
    else
      let sc := process_uncovered_range cfg f uncovered
      ⟨[sc.1], sc.2, []⟩
  else ⟨[], [], []⟩

/-- The full cache-aware run as a plan: the accumulated summaries, the
raw-message completion calls, the stored rows, and the shape of the
final combining step. -/
structure CacheAwarePlan where
  summaries : List String
  calls : List (List Msg)
  stored : List ChunkRow
  final : FinalInput
deriving DecidableEq, Repr

/-- Embeds `SummaryEngine._generate_cache_aware_summary` (lines 588-777) as a
plan.  An empty message list returns early (the "No messages found"
string, no calls).  With no overlapping cached chunks, everything is
processed by deterministic chunking with caching and combined by one
direct meta-summary call (`_generate_deterministic_chunked_summary`,
lines 870-890, which does not consult the progressive-summarization
budget).  Otherwise the cached summaries are used, the uncovered ranges
strictly before and strictly after the cached span are processed, and
the combined list goes through the budget dispatch of lines 760-777. -/
def generate_cache_aware_plan (cfg : Config) (f : List Msg → String) (table : List ChunkRow)
    (messages : List Msg) : CacheAwarePlan :=
  let sorted := sortMsgs messages
  if sorted.isEmpty then ⟨[], [], [], .direct []⟩
  else
    let chat_id := head_chat_id sorted
    let start_message_id := head_msg_id sorted
    let end_message_id := last_msg_id sorted
    let overlapping := overlapping_of table messages
    if overlapping.isEmpty then
      let boundaries := calculate_chunk_boundaries sorted cfg.SUMMARY_CHUNK_SIZE
        cfg.SUMMARY_CHUNK_OVERLAP
      let out := process_chunks_with_boundaries f sorted chat_id true [] boundaries
      ⟨out.summaries, out.calls, out.stored, .direct out.summaries⟩
    else
      let base := overlapping.map (·.summary_text)
      let cs := covered_start overlapping
      let ce := covered_end overlapping
      if cs ≤ start_message_id ∧ end_message_id ≤ ce then
        ⟨base, [], [], assemble_final cfg base⟩
      else
        let pre := before_part cfg f sorted chat_id start_message_id cs
        let post := after_part cfg f sorted chat_id end_message_id ce
        let allSummaries := pre.summaries ++ base ++ post.summaries
        ⟨allSummaries, pre.calls ++ post.calls, pre.stored ++ post.stored,
          assemble_final cfg allSummaries⟩

/-- Embeds `SummaryEngine.generate_summary` (lines 1029-1043): the whole smart
summary generation is wrapped in a `try`; on success the raw summary is
sanitized, and any exception `e` is caught and converted into the fixed
fallback text carrying `str(e)`. -/
def generate_summary (smart : Except String String) : String :=
  match smart with
  | .ok raw => sanitize_html raw
  | .error e => "Sorry, I couldn\x27t generate a summary at this time. Error: " ++ e

/-! ## The backfill processor `ensure_chunks_processed`

`MessageHandler.handle_message` (message_handler.py lines 156-158) calls
`self.summary_engine.ensure_chunks_processed(chat_id)` on every message
whose id is divisible by 10, but no file of the repository defines that
method; only this caller and the specification describe it.  The
definitions below are therefore modelled from the specification's
BackfillProcessor state machine (spec §4.4). -/

/-- The trigger condition of message_handler.py line 157:
`if message_id % 10 == 0`. -/
def backfill_trigger (message_id : Int) : Bool := message_id % 10 == 0

/-- Modelled from the spec: coverage (spec §3) — a message is covered
iff some stored chunk row's `[start_message_id, end_message_id]` range
contains its id. -/
def msg_covered (table : List ChunkRow) (m : Msg) : Bool :=
  table.any fun r =>
    decide (r.start_message_id ≤ m.message_id) && decide (m.message_id ≤ r.end_message_id)

/-- Modelled from the spec: `CoverageTracker.uncovered` (spec §4.3) —
the subsequence of the chat's messages covered by no stored chunk. -/
def uncovered (messages : List Msg) (table : List ChunkRow) : List Msg :=
  messages.filter fun m => !msg_covered table m

/-- Modelled from the spec: slicing the oldest `k * S` uncovered
messages into `k` disjoint, contiguous, size-`S` chunks (spec §4.4 step
4) and committing each with `chunk_id = chat_id+"_"+start+"_"+end` and
the summary the completion service returns for it (step 5). -/
def build_spec_chunks (chat_id : Int) (S : Nat) (f : List Msg → String) :
    Nat → List Msg → List ChunkRow
  | 0, _ => []
  | k + 1, l =>
    let slice := l.take S
    ⟨generate_chunk_id chat_id (head_msg_id slice) (last_msg_id slice),
      chat_id, head_msg_id slice, last_msg_id slice, slice.length, f slice⟩ ::
      build_spec_chunks chat_id S f k (l.drop S)

/-- Modelled from the spec: the outer loop of
`ensure_processed(chat_id)` (spec §4.4): recompute the uncovered set,
terminate when fewer than `S` messages remain, otherwise commit
`min(len(uncovered) // S, MAX_PARALLEL)` chunks over the oldest
uncovered messages and loop.  `fuel` bounds the iterations; each
successful iteration covers at least `S` more messages, so
`messages.length + 1` iterations always suffice. -/
def ensureProcessedAux (S MP : Nat) (chat_id : Int) (f : List Msg → String)
    (messages : List Msg) : Nat → List ChunkRow → Nat × List ChunkRow
  | 0, table => (0, table)
  | fuel + 1, table =>
    let u := uncovered messages table
    if u.length < S then (0, table)
    else
      let k := min (u.length / S) MP
      let newRows := build_spec_chunks chat_id S f k u
      let rec_result := ensureProcessedAux S MP chat_id f messages fuel (table ++ newRows)
      (k + rec_result.1, rec_result.2)

/-- Modelled from the spec: `ensure_processed(chat_id) → chunks_committed`
(spec §4.4, the missing `SummaryEngine.ensure_chunks_processed`): given
the chat's full message history and the current chunk table, returns the
number of chunks committed and the updated table.  All dispatched
completion calls are modelled as succeeding (task failure is a property
of the external completion service). -/
def ensure_chunks_processed (S MP : Nat) (chat_id : Int) (f : List Msg → String)
    (messages : List Msg) (table : List ChunkRow) : Nat × List ChunkRow :=
  ensureProcessedAux S MP chat_id f messages (messages.length + 1) table

/-! # Theorems for the claims -/

/-! ## C1 — sanitizer output well-formedness -/

/-- C1: the claim that `sanitize_html` output contains only allowed,
properly paired tags fails on the code.  On the markdown-converted text
`<b class="x">bold <i class="y">it</i></b>` the pair-replacement loop
splices the clean closing `</b>` at a stale position (canonicalizing the
attribute-bearing `<i ...>` tag shortened the string first), so the
output carries an orphaned `</b>` — exactly what the function's own
docstring ("All tags are properly matched") rules out. -/
theorem sanitize_html_c1_orphan_closing_tag :
    sanitize_html "<b class=\"x\">bold <i class=\"y\">it</i></b>" =
      "<b>bold <i>it</i></b></b>" ∧
    spec_wellformed (sanitize_html "<b class=\"x\">bold <i class=\"y\">it</i></b>") = false := by
  constructor
  · decide
  · decide

/-! ## C3 — chunk boundary calculation -/

/-- C3: the claim fails on the code for `n = S`.  For three messages and
`chunk_size = 3` (stride `overlap = 0`), `calculate_chunk_boundaries`
takes the `len(messages) <= chunk_size` early return and marks the
single boundary — which holds exactly `chunk_size` messages —
`is_complete = False`, contradicting the claimed "when n equals S
exactly one complete chunk is produced" (and the code's own comment
"Less than full chunk size" next to that `False`). -/
theorem calculate_chunk_boundaries_c3_full_chunk_marked_incomplete :
    calculate_chunk_boundaries [⟨1, 7⟩, ⟨2, 7⟩, ⟨3, 7⟩] 3 0 =
      [⟨1, 3, 3, false⟩] := by
  decide

/-! ## C4 — duplicate chunk insertion fails loudly -/

/-- C4: `DatabaseManager.store_chunk_summary` on a `chunk_id` that is
already present hits the UNIQUE constraint: the write is rolled back and
the error is raised to the caller — the result is `Except.error`, never
a successful insert and never an overwrite of the existing row. -/
theorem db_store_chunk_summary_c4_duplicate_surfaces_error
    (table : List ChunkRow) (r : ChunkRow) (chat s e : Int) (cnt : Nat) (txt : String)
    (hr : r ∈ table) :
    db_store_chunk_summary table r.chunk_id chat s e cnt txt =
      Except.error "UNIQUE constraint failed: chunk_summaries.chunk_id" ∧
    ∀ t2, db_store_chunk_summary table r.chunk_id chat s e cnt txt ≠ Except.ok t2 := by
  have hany : (table.any fun x => x.chunk_id == r.chunk_id) = true :=
    List.any_eq_true.mpr ⟨r, hr, by simp⟩
  unfold db_store_chunk_summary
  rw [if_pos hany]
  exact ⟨rfl, by intro t2 h; cases h⟩

/-- Witness for C4 at a concrete table with one row and a duplicate
insert. -/
theorem db_store_chunk_summary_c4_witness :
    db_store_chunk_summary [⟨"7_1_10", 7, 1, 10, 10, "A"⟩] "7_1_10" 7 1 10 10 "dup" =
      Except.error "UNIQUE constraint failed: chunk_summaries.chunk_id" :=
  (db_store_chunk_summary_c4_duplicate_surfaces_error
    [⟨"7_1_10", 7, 1, 10, 10, "A"⟩] ⟨"7_1_10", 7, 1, 10, 10, "A"⟩ 7 1 10 10 "dup"
    (by decide)).1

/-! ## C9 — generate_summary never propagates an exception -/

/-- C9: `SummaryEngine.generate_summary` always returns text: a
successful smart-summary run is passed through the sanitizer, and any
exception raised during generation is caught and converted into the
deterministic fallback string carrying the exception text. -/
theorem generate_summary_c9_always_returns_text :
    (∀ raw, generate_summary (Except.ok raw) = sanitize_html raw) ∧
    (∀ e, generate_summary (Except.error e) =
      "Sorry, I couldn\x27t generate a summary at this time. Error: " ++ e) :=
  ⟨fun _ => rfl, fun _ => rfl⟩

/-- Witness for C9 at a concrete failure. -/
theorem generate_summary_c9_witness :
    generate_summary (Except.error "boom") =
      "Sorry, I couldn\x27t generate a summary at this time. Error: boom" :=
  generate_summary_c9_always_returns_text.2 "boom"

/-! ## C5 — integer-list hrefs are not rewritten into deep links -/

/-- C5 counterexample: sanitizing the link shorthand `href="5,9"`
produces no links at all — the anchor pair is dropped because `5,9` does
not start with an allowed scheme, leaving only the visible text, instead
of the two deep links the claim describes. -/
theorem sanitize_html_c5_integer_href_dropped :
    sanitize_html "<a href=\"5,9\">text</a>" = "text" ∧
    findTags (sanitize_html "<a href=\"5,9\">text</a>").data = [] := by
  constructor
  · decide
  · decide

/-- C5 amended: an anchor pair survives (with its href canonicalized)
exactly when the href starts with `http://`, `https://`, `tg://` or
`mailto:`; any other target — a bare integer or integer list included —
causes the whole anchor pair to be dropped, keeping only its visible
text.  No message-reference rewriting exists in the sanitizer. -/
theorem sanitize_html_c5_scheme_allowlist :
    sanitize_html "<a href=\"https://e.co\">L</a>" = "<a href=\"https://e.co\">L</a>" ∧
    sanitize_html "<a href=\"tg://user?id=1\">L</a>" = "<a href=\"tg://user?id=1\">L</a>" ∧
    sanitize_html "<a href=\"5\">L</a>" = "L" := by
  refine ⟨?_, ?_, ?_⟩
  · decide
  · decide
  · decide

/-! ## C8 — the sanitizer is not idempotent -/

/-- C8 counterexample: on
`<i class="z">a <b class="w">b</b></i>` the first sanitizer pass leaves
an orphaned `</i>` (a stale-position splice, as in C1), and the second
pass removes that orphan — so running the sanitizer on its own output is
not a no-op. -/
theorem sanitize_html_c8_not_idempotent :
    sanitize_html (sanitize_html "<i class=\"z\">a <b class=\"w\">b</b></i>") ≠
      sanitize_html "<i class=\"z\">a <b class=\"w\">b</b></i>" := by
  decide

/-- C8 amended: the sanitizer is not idempotent in general — a first
pass over attribute-bearing tags can emit an orphaned closing tag that a
second pass then removes.  On such an input the second output is a fixed
point: a third application changes nothing further. -/
theorem sanitize_html_c8_second_output_fixed :
    sanitize_html (sanitize_html (sanitize_html "<i class=\"z\">a <b class=\"w\">b</b></i>")) =
      sanitize_html (sanitize_html "<i class=\"z\">a <b class=\"w\">b</b></i>") := by
  decide

/-! ## C7 — the reduction trigger and grouping are character-based -/

/-- C7 counterexample: eleven cached summaries exceed the claimed
count threshold of 10, yet the assembly issues zero group-level
completion calls and hands all eleven summaries directly to the final
call — the code's trigger is the character budget
(`MAX_CONTEXT_TOKENS * CHARS_PER_TOKEN // 2` = 32000 chars with the
defaults), not a count threshold. -/
theorem assemble_final_c7_eleven_summaries_no_reduction :
    numGroupCalls (assemble_final defaultConfig (List.replicate 11 "a")) = 0 ∧
    assemble_final defaultConfig (List.replicate 11 "a") =
      FinalInput.direct (List.replicate 11 "a") := by
  constructor
  · decide
  · decide

/-- The grouping loop partitions the summaries in storage order: the
concatenation of the produced groups is the original list. -/
theorem metaChunkGroupsAux_flatten (target : Nat) :
    ∀ (l cur : List String) (cnt : Nat),
      (metaChunkGroupsAux target l cur cnt).flatten = cur ++ l := by
  intro l
  induction l with
  | nil =>
    intro cur cnt
    by_cases h : cur.isEmpty
    · simp [metaChunkGroupsAux, h, List.isEmpty_iff.mp h]
    · simp [metaChunkGroupsAux, h]
  | cons s rest ih =>
    intro cur cnt
    by_cases h : target < cnt + s.length ∧ !cur.isEmpty
    · simp only [metaChunkGroupsAux, decide_eq_true_eq]
      rw [if_pos (by simp [h.1, h.2])]
      simp [ih]
    · simp only [metaChunkGroupsAux, decide_eq_true_eq]
      rw [if_neg (by intro hc; exact h (by simpa using hc))]
      simp [ih]

/-- C7 amended: when the total character count of the summaries entering
the assembly exceeds `MAX_CONTEXT_TOKENS * CHARS_PER_TOKEN // 2`, they
are partitioned in storage order into groups targeting a quarter of that
budget each, one group-level completion call is issued per group, and
the final call runs over the ordered group results; the grouping
partitions the summaries exactly, and the reduction is single-level (the
group results are never re-grouped). -/
theorem assemble_final_c7_char_budget_reduction (cfg : Config) (summaries : List String)
    (h : max_chars_for_meta_summary cfg < totalChars summaries) :
    assemble_final cfg summaries = FinalInput.reduced (meta_chunk_groups cfg summaries) ∧
    (meta_chunk_groups cfg summaries).flatten = summaries := by
  constructor
  · unfold assemble_final apply_progressive_summarization
    rw [if_pos h, if_neg (Nat.not_le.mpr h)]
  · simpa using metaChunkGroupsAux_flatten (max_chars_for_meta_summary cfg / 4) summaries [] 0

/-- Witness for C7 amended: a config with a 4-character budget and a
single 5-character summary. -/
theorem assemble_final_c7_witness :
    assemble_final ⟨200, 70, 5, 2, 2, 4⟩ ["hello"] = FinalInput.reduced [["hello"]] :=
  (assemble_final_c7_char_budget_reduction ⟨200, 70, 5, 2, 2, 4⟩ ["hello"] (by decide)).1

/-! ## C6 — a fully covered request is served purely from cache -/

set_option maxRecDepth 20000 in
/-- C6 counterexample: a fully covered request is not always answered
with "only the final combining call".  With 81 cached chunks of 400
characters each (ranges `[10i+1, 10i+10]`) fully covering the request
over ids 2..805, the cached total of 32400 characters exceeds the
32000-character budget of lines 760-777, so the run — while still
issuing no completion call over raw messages — issues five group-level
reduction calls over the cached summaries before the final call. -/
theorem generate_cache_aware_plan_c6_over_budget_reduces :
    (generate_cache_aware_plan defaultConfig (fun _ => "live")
      ((List.range 81).map fun i =>
        ⟨"c", 7, 10 * (i : Int) + 1, 10 * (i : Int) + 10, 10,
          String.mk (List.replicate 400 'a')⟩)
      [⟨2, 7⟩, ⟨805, 7⟩]).calls = [] ∧
    numGroupCalls (generate_cache_aware_plan defaultConfig (fun _ => "live")
      ((List.range 81).map fun i =>
        ⟨"c", 7, 10 * (i : Int) + 1, 10 * (i : Int) + 10, 10,
          String.mk (List.replicate 400 'a')⟩)
      [⟨2, 7⟩, ⟨805, 7⟩]).final = 5 := by
  constructor
  · decide
  · decide

/-- C6 amended: when the cached chunks overlapping the request fully
cover it (minimum cached start at or below the request start and maximum
cached end at or above the request end), the cache-aware run issues no
completion call over raw messages, stores nothing, and uses exactly the
cached chunk summaries in `start_message_id` order; those summaries feed
the final step, which is the one direct combining call when their total
character count fits the `MAX_CONTEXT_TOKENS * CHARS_PER_TOKEN // 2`
budget, and otherwise the character-based grouping of the cached
summaries with one reduction call per group before the final call. -/
theorem generate_cache_aware_plan_c6_fully_covered (cfg : Config) (f : List Msg → String)
    (table : List ChunkRow) (messages : List Msg)
    (hne : (sortMsgs messages).isEmpty = false)
    (hov : (overlapping_of table messages).isEmpty = false)
    (hcov : covered_start (overlapping_of table messages) ≤ head_msg_id (sortMsgs messages) ∧
      last_msg_id (sortMsgs messages) ≤ covered_end (overlapping_of table messages)) :
    (generate_cache_aware_plan cfg f table messages).calls = [] ∧
    (generate_cache_aware_plan cfg f table messages).stored = [] ∧
    (generate_cache_aware_plan cfg f table messages).summaries =
      (overlapping_of table messages).map (·.summary_text) ∧
    (totalChars ((overlapping_of table messages).map (·.summary_text)) ≤
        max_chars_for_meta_summary cfg →
      (generate_cache_aware_plan cfg f table messages).final =
        FinalInput.direct ((overlapping_of table messages).map (·.summary_text))) ∧
    (max_chars_for_meta_summary cfg <
        totalChars ((overlapping_of table messages).map (·.summary_text)) →
      (generate_cache_aware_plan cfg f table messages).final =
        FinalInput.reduced (meta_chunk_groups cfg
          ((overlapping_of table messages).map (·.summary_text)))) := by
  unfold generate_cache_aware_plan
  rw [if_neg (by simp [hne]), if_neg (by simp [hov]), if_pos hcov]
  refine ⟨rfl, rfl, rfl, ?_, ?_⟩
  · intro hfit
    show assemble_final _ _ = _
    unfold assemble_final
    rw [if_neg (Nat.not_lt.mpr hfit)]
  · intro hbig
    show assemble_final _ _ = _
    unfold assemble_final apply_progressive_summarization
    rw [if_pos hbig, if_neg (Nat.not_le.mpr hbig)]

/-- Witness for C6: two cached chunks `[1,10]` and `[21,30]` whose span
covers the request over message ids 2, 5 and 25. -/
theorem generate_cache_aware_plan_c6_witness :
    (generate_cache_aware_plan defaultConfig (fun _ => "live")
      [⟨"7_1_10", 7, 1, 10, 10, "A"⟩, ⟨"7_21_30", 7, 21, 30, 10, "B"⟩]
      [⟨2, 7⟩, ⟨5, 7⟩, ⟨25, 7⟩]).calls = [] :=
  (generate_cache_aware_plan_c6_fully_covered defaultConfig (fun _ => "live")
    [⟨"7_1_10", 7, 1, 10, 10, "A"⟩, ⟨"7_21_30", 7, 21, 30, 10, "B"⟩]
    [⟨2, 7⟩, ⟨5, 7⟩, ⟨25, 7⟩] (by decide) (by decide) (by decide)).1

/-! ## C10 — gap messages between cached chunks reach no completion call -/

/-- Helper: `_summarize_chunk` only ever calls the completion service on exactly
the message list it was handed. -/
theorem calls_of_summarize_chunk (f : List Msg → String) (msgs : List Msg) :
    ∀ c ∈ (summarize_chunk f msgs).2, c = msgs := by
  intro c hc
  unfold summarize_chunk at hc
  split at hc
  · simp at hc
  · simpa using hc

/-- Every raw-message completion call issued by
`_process_chunks_with_boundaries` carries only messages drawn from its
input list. -/
theorem calls_of_process_chunks (f : List Msg → String) (messages : List Msg) (chat_id : Int)
    (sc : Bool) (cached : List (String × String)) :
    ∀ (bs : List ChunkBoundary), ∀ c ∈ (process_chunks_with_boundaries f messages chat_id
      sc cached bs).calls, ∀ m ∈ c, m ∈ messages := by
  intro bs
  induction bs with
  | nil =>
    intro c hc
    simp [process_chunks_with_boundaries] at hc
  | cons b rest ih =>
    intro c hc m hm
    unfold process_chunks_with_boundaries at hc
    dsimp only at hc
    split at hc
    · exact ih c hc m hm
    · split at hc
      · exact ih c hc m hm
      · split at hc
        · exact ih c hc m hm
        · split at hc
          · simp only at hc
            rcases List.mem_append.mp hc with h1 | h2
            · have := calls_of_summarize_chunk f _ c h1
              subst this
              exact List.mem_of_mem_filter hm
            · exact ih c h2 m hm
          · split at hc
            · simp only at hc
              rcases List.mem_append.mp hc with h1 | h2
              · have := calls_of_summarize_chunk f _ c h1
                subst this
                exact List.mem_of_mem_filter hm
              · exact ih c h2 m hm
            · simp only at hc
              rcases List.mem_append.mp hc with h1 | h2
              · have := calls_of_summarize_chunk f _ c h1
                subst this
                exact List.mem_of_mem_filter hm
              · exact ih c h2 m hm

/-- Every raw-message completion call issued by
`_process_uncovered_range` carries only messages drawn from its input
list. -/
theorem calls_of_process_uncovered_range (cfg : Config) (f : List Msg → String)
    (msgs : List Msg) :
    ∀ c ∈ (process_uncovered_range cfg f msgs).2, ∀ m ∈ c, m ∈ msgs := by
  intro c hc m hm
  unfold process_uncovered_range at hc
  dsimp only at hc
  split at hc
  · have := calls_of_summarize_chunk f msgs c hc
    subst this
    exact hm
  · split at hc
    · exact calls_of_process_chunks f msgs _ false [] _ c hc m hm
    · exact calls_of_process_chunks f msgs _ false [] _ c hc m hm

/-- Every message in a call issued by the before-cache processing has an
id strictly below the covered start. -/
theorem calls_of_before_part (cfg : Config) (f : List Msg → String) (sorted : List Msg)
    (chat_id : Int) (start_message_id cs : Int) :
    ∀ c ∈ (before_part cfg f sorted chat_id start_message_id cs).calls,
      ∀ m ∈ c, m.message_id < cs := by
  intro c hc m hm
  unfold before_part at hc
  dsimp only at hc
  split at hc
  · split at hc
    · simp at hc
    · split at hc
      · have hmem := calls_of_process_chunks f _ chat_id true [] _ c hc m hm
        have := List.of_mem_filter hmem
        simp only [Bool.and_eq_true, decide_eq_true_eq] at this
        exact this.2
      · simp only at hc
        have hmem := calls_of_process_uncovered_range cfg f _ c hc m hm
        have := List.of_mem_filter hmem
        simp only [Bool.and_eq_true, decide_eq_true_eq] at this
        exact this.2
  · simp at hc

/-- Every message in a call issued by the after-cache processing has an
id strictly above the covered end. -/
theorem calls_of_after_part (cfg : Config) (f : List Msg → String) (sorted : List Msg)
    (chat_id : Int) (end_message_id ce : Int) :
    ∀ c ∈ (after_part cfg f sorted chat_id end_message_id ce).calls,
      ∀ m ∈ c, ce < m.message_id := by
  intro c hc m hm
  unfold after_part at hc
  dsimp only at hc
  split at hc
  · split at hc
    · simp at hc
    · split at hc
      · have hmem := calls_of_process_chunks f _ chat_id true [] _ c hc m hm
        have := List.of_mem_filter hmem
        simpa using this
      · simp only at hc
        have hmem := calls_of_process_uncovered_range cfg f _ c hc m hm
        have := List.of_mem_filter hmem
        simpa using this
  · simp at hc

/-- C10: in the cache-aware assembly with at least one overlapping
cached chunk, a message whose id lies within the cached span — between
the minimum cached `start_message_id` and the maximum cached
`end_message_id` — and in particular any gap message covered by no
cached chunk, is contained in no raw-message completion call. -/
theorem generate_cache_aware_plan_c10_gap_never_called (cfg : Config) (f : List Msg → String)
    (table : List ChunkRow) (messages : List Msg) (m : Msg)
    (hov : (overlapping_of table messages).isEmpty = false)
    (hin : covered_start (overlapping_of table messages) ≤ m.message_id ∧
      m.message_id ≤ covered_end (overlapping_of table messages))
    (hgap : ∀ r ∈ overlapping_of table messages,
      ¬(r.start_message_id ≤ m.message_id ∧ m.message_id ≤ r.end_message_id)) :
    ∀ c ∈ (generate_cache_aware_plan cfg f table messages).calls, m ∉ c := by
  intro c hc hm
  unfold generate_cache_aware_plan at hc
  dsimp only at hc
  split at hc
  · simp at hc
  · rw [if_neg (by simp [hov])] at hc
    split at hc
    · simp at hc
    · simp only at hc
      rcases List.mem_append.mp hc with h1 | h2
      · exact absurd (calls_of_before_part cfg f _ _ _ _ c h1 m hm) (Int.not_lt.mpr hin.1)
      · exact absurd (calls_of_after_part cfg f _ _ _ _ c h2 m hm) (Int.not_lt.mpr hin.2)

/-- Witness for C10: cached chunks `[2,10]` and `[21,30]`, a request
over ids 1, 15 and 25 (so the range before the cache is processed), and
the gap message with id 15, which appears in no issued call. -/
theorem generate_cache_aware_plan_c10_witness :
    (⟨15, 7⟩ : Msg) ∉ (generate_cache_aware_plan defaultConfig (fun _ => "live")
      [⟨"7_2_10", 7, 2, 10, 9, "A"⟩, ⟨"7_21_30", 7, 21, 30, 10, "B"⟩]
      [⟨1, 7⟩, ⟨15, 7⟩, ⟨25, 7⟩]).calls.flatten := by
  intro hmem
  obtain ⟨c, hc, hm⟩ := List.mem_flatten.mp hmem
  exact generate_cache_aware_plan_c10_gap_never_called defaultConfig (fun _ => "live")
    [⟨"7_2_10", 7, 2, 10, 9, "A"⟩, ⟨"7_21_30", 7, 21, 30, 10, "B"⟩]
    [⟨1, 7⟩, ⟨15, 7⟩, ⟨25, 7⟩] ⟨15, 7⟩ (by decide) (by decide) (by decide) c hc hm

/-! ## C2 — `ensure_processed` idempotence (spec-modelled backfill) -/

/-- In a strictly sorted message list, the head id bounds every member
from below. -/
theorem sorted_head_le {l : List Msg}
    (h : List.Pairwise (fun a b => a.message_id < b.message_id) l)
    {m : Msg} (hm : m ∈ l) : head_msg_id l ≤ m.message_id := by
  cases l with
  | nil => cases hm
  | cons x xs =>
    rcases List.mem_cons.mp hm with rfl | hm2
    · exact le_refl _
    · exact le_of_lt ((List.pairwise_cons.mp h).1 m hm2)

/-- In a strictly sorted message list, the last id bounds every member
from above. -/
theorem sorted_le_last {l : List Msg}
    (h : List.Pairwise (fun a b => a.message_id < b.message_id) l)
    {m : Msg} (hm : m ∈ l) : m.message_id ≤ last_msg_id l := by
  induction l with
  | nil => cases hm
  | cons x xs ih =>
    cases xs with
    | nil =>
      rw [List.mem_singleton] at hm
      subst hm
      simp [last_msg_id]
    | cons y ys =>
      have hlast : last_msg_id (x :: y :: ys) = last_msg_id (y :: ys) := by
        simp [last_msg_id, List.getLast?_cons_cons]
      rw [hlast]
      rcases List.mem_cons.mp hm with rfl | hm2
      · obtain ⟨g, hgl, hgm⟩ : ∃ g, (y :: ys).getLast? = some g ∧ g ∈ y :: ys :=
          ⟨(y :: ys).getLast (by simp), List.getLast?_eq_getLast _ _, List.getLast_mem _⟩
        have hlt : m.message_id < g.message_id := (List.pairwise_cons.mp h).1 g hgm
        simp only [last_msg_id, hgl]
        exact le_of_lt hlt
      · exact ih (List.pairwise_cons.mp h).2 hm2

/-- The chunks committed in one backfill iteration cover the oldest
`k * S` uncovered messages they were built from. -/
theorem build_spec_chunks_cover (chat : Int) (f : List Msg → String) {S : Nat} :
    ∀ (k : Nat) (u : List Msg),
      List.Pairwise (fun a b => a.message_id < b.message_id) u →
      k * S ≤ u.length →
      ∀ m ∈ u.take (k * S), msg_covered (build_spec_chunks chat S f k u) m = true := by
  intro k
  induction k with
  | zero => intro u _ _ m hm; simp at hm
  | succ k ih =>
    intro u hu hlen m hm
    rw [Nat.succ_mul, Nat.add_comm] at hm hlen
    rw [List.take_add] at hm
    unfold build_spec_chunks
    dsimp only
    unfold msg_covered
    rw [List.any_cons]
    simp only [Bool.or_eq_true, Bool.and_eq_true, decide_eq_true_eq]
    rcases List.mem_append.mp hm with h1 | h2
    · have hsl : List.Pairwise (fun a b => a.message_id < b.message_id) (u.take S) :=
        List.Pairwise.sublist (List.take_sublist S u) hu
      exact Or.inl ⟨sorted_head_le hsl h1, sorted_le_last hsl h1⟩
    · have hlen2 : k * S ≤ (u.drop S).length := by
        rw [List.length_drop]
        omega
      have hcov := ih (u.drop S) (List.Pairwise.sublist (List.drop_sublist S u) hu) hlen2 m h2
      right
      simpa [msg_covered] using hcov

/-- Adding rows to the chunk table refines the uncovered set by an extra
coverage filter. -/
theorem uncovered_append (msgs : List Msg) (t1 t2 : List ChunkRow) :
    uncovered msgs (t1 ++ t2) =
      (uncovered msgs t1).filter (fun m => !msg_covered t2 m) := by
  unfold uncovered
  rw [List.filter_filter]
  apply List.filter_congr
  intro m _
  simp [msg_covered, List.any_append, Bool.and_comm]

/-- If a filter rejects the whole `n`-prefix of a list, the filtered
list is no longer than the remainder. -/
theorem length_filter_le_of_take_nil {α : Type} (p : α → Bool) (l : List α) (n : Nat)
    (hnil : (l.take n).filter p = []) : (l.filter p).length ≤ l.length - n := by
  conv_lhs => rw [← List.take_append_drop n l]
  rw [List.filter_append, hnil]
  simp only [List.nil_append]
  exact le_trans (List.length_filter_le _ _) (le_of_eq (List.length_drop _ _))

/-- Committing `k` chunks over the oldest `k * S` uncovered messages
shrinks the uncovered set by at least `k * S`. -/
theorem uncovered_commit_le (msgs : List Msg) (table : List ChunkRow) (chat : Int)
    (f : List Msg → String) {S k : Nat}
    (hsort : List.Pairwise (fun a b => a.message_id < b.message_id) msgs)
    (hk : k * S ≤ (uncovered msgs table).length) :
    (uncovered msgs (table ++ build_spec_chunks chat S f k (uncovered msgs table))).length ≤
      (uncovered msgs table).length - k * S := by
  have husort : List.Pairwise (fun a b => a.message_id < b.message_id)
      (uncovered msgs table) := List.Pairwise.filter _ hsort
  have hnil : ((uncovered msgs table).take (k * S)).filter
      (fun m => !msg_covered (build_spec_chunks chat S f k (uncovered msgs table)) m) = [] := by
    rw [List.filter_eq_nil_iff]
    intro m hm
    have := build_spec_chunks_cover chat f k (uncovered msgs table) husort hk m hm
    simp [this]
  rw [uncovered_append]
  exact length_filter_le_of_take_nil _ _ _ hnil

/-- After a backfill run with enough fuel, fewer than `S` messages
remain uncovered. -/
theorem ensureProcessedAux_converges (S MP : Nat) (chat : Int) (f : List Msg → String)
    (messages : List Msg)
    (hsort : List.Pairwise (fun a b => a.message_id < b.message_id) messages)
    (hS : 0 < S) (hMP : 0 < MP) :
    ∀ (fuel : Nat) (table : List ChunkRow),
      (uncovered messages table).length ≤ fuel →
      (uncovered messages (ensureProcessedAux S MP chat f messages fuel table).2).length < S := by
  intro fuel
  induction fuel with
  | zero =>
    intro table h
    have h0 : (uncovered messages table).length = 0 := Nat.le_zero.mp h
    simpa [ensureProcessedAux, h0] using hS
  | succ fuel ih =>
    intro table h
    unfold ensureProcessedAux
    dsimp only
    split
    · rename_i hlt
      exact hlt
    · rename_i hge
      have hSle : S ≤ (uncovered messages table).length := Nat.not_lt.mp hge
      set k := min ((uncovered messages table).length / S) MP with hkdef
      have hk1 : 1 ≤ k :=
        le_min ((Nat.one_le_div_iff hS).mpr hSle) hMP
      have hkS : k * S ≤ (uncovered messages table).length :=
        le_trans (Nat.mul_le_mul_right S (min_le_left _ _)) (Nat.div_mul_le_self _ _)
      have hSk : S ≤ k * S := by
        calc S = 1 * S := (Nat.one_mul S).symm
          _ ≤ k * S := Nat.mul_le_mul_right S hk1
      have hdec := uncovered_commit_le messages table chat f hsort hkS
      exact ih _ (by omega)

/-- C2: the backfill operation, invoked from `handle_message` on every
message id divisible by 10, returns the number of committed chunks, and
running it a second time with no new messages commits 0 chunks and
leaves the chunk table unchanged (modelled from the spec, §4.4: the
repository calls `SummaryEngine.ensure_chunks_processed` but defines it
nowhere). -/
theorem ensure_chunks_processed_c2_idempotent (S MP : Nat) (chat : Int)
    (f : List Msg → String) (messages : List Msg) (table : List ChunkRow)
    (hsort : List.Pairwise (fun a b => a.message_id < b.message_id) messages)
    (hS : 0 < S) (hMP : 0 < MP) :
    (ensure_chunks_processed S MP chat f messages
        ((ensure_chunks_processed S MP chat f messages table).2)).1 = 0 ∧
    (ensure_chunks_processed S MP chat f messages
        ((ensure_chunks_processed S MP chat f messages table).2)).2 =
      (ensure_chunks_processed S MP chat f messages table).2 ∧
    backfill_trigger 20 = true := by
  have h1 : (uncovered messages (ensure_chunks_processed S MP chat f messages table).2).length
      < S := by
    apply ensureProcessedAux_converges S MP chat f messages hsort hS hMP
    calc (uncovered messages table).length ≤ messages.length := List.length_filter_le _ _
      _ ≤ messages.length + 1 := Nat.le_succ _
  have h2 : ensureProcessedAux S MP chat f messages (messages.length + 1)
      ((ensure_chunks_processed S MP chat f messages table).2) =
      (0, (ensure_chunks_processed S MP chat f messages table).2) := by
    unfold ensureProcessedAux
    dsimp only
    rw [if_pos h1]
  refine ⟨?_, ?_, rfl⟩
  · show (ensureProcessedAux S MP chat f messages (messages.length + 1) _).1 = 0
    rw [h2]
  · show (ensureProcessedAux S MP chat f messages (messages.length + 1) _).2 = _
    rw [h2]

/-- Witness for C2: five messages, chunk size 2, parallelism 2; the
first call commits two chunks, the second call commits 0. -/
theorem ensure_chunks_processed_c2_witness :
    (ensure_chunks_processed 2 2 7 (fun _ => "s") [⟨1, 7⟩, ⟨2, 7⟩, ⟨3, 7⟩, ⟨4, 7⟩, ⟨5, 7⟩]
        ((ensure_chunks_processed 2 2 7 (fun _ => "s")
          [⟨1, 7⟩, ⟨2, 7⟩, ⟨3, 7⟩, ⟨4, 7⟩, ⟨5, 7⟩] []).2)).1 = 0 :=
  (ensure_chunks_processed_c2_idempotent 2 2 7 (fun _ => "s")
    [⟨1, 7⟩, ⟨2, 7⟩, ⟨3, 7⟩, ⟨4, 7⟩, ⟨5, 7⟩] [] (by decide) (by decide) (by decide)).1

end Suntobot
